import Mathlib

/-!
Verification development for the Shortcut MCP server (mcp-server-shortcut).

The repository's hardest component is the search-query compiler
(`src/tools/utils/search.ts`, entry point `buildSearchQuery`), which turns a
structured set of filter parameters into one flat query string for the
Shortcut search backend.  The repository snapshot at hand contains its
callers (`src/tools/stories.ts`, and `searchEpics` in the material bundled
with `src/tools/workflows.test.ts`) but not `search.ts` itself, so the
compiler is modelled from the specification, constrained by the caller-side
signature visible in the source: `buildSearchQuery(params, currentUser)`
receives the current user already resolved by the caller
(`stories.ts` line 259: `const currentUser = await this.client.getCurrentUser()`).

The story-tool operations (`assignCurrentUserAsOwner`,
`unassignCurrentUserAsOwner`, `getStoryBranchName`) are embedded directly
from `src/tools/stories.ts`.
-/

/-- A Shortcut member, as used by `ShortcutClient.getCurrentUser`:
the fields accessed in the source are `id` and `mention_name`. -/
structure Member where
  id : String
  mention_name : String
deriving DecidableEq, Repr

/-- Modelled from the spec: `ValueKind` is the closed variant
`String | Number | Enum(allowedSet) | BooleanIs(label) | BooleanHas(label) | Date | UserRef`
tagging each catalog entry (spec section 3). -/
inductive ValueKind where
  | stringK : ValueKind
  | numberK : ValueKind
  | enumK (allowed : List String) : ValueKind
  | booleanIs (label : String) : ValueKind
  | booleanHas (label : String) : ValueKind
  | dateK : ValueKind
  | userRefK : ValueKind
deriving DecidableEq, Repr

/-- Modelled from the spec: `FilterField` is the immutable catalog entry
`{key, backendToken, kind}` (spec section 3). -/
structure FilterField where
  key : String
  backendToken : String
  kind : ValueKind
deriving DecidableEq, Repr

/-- Modelled from the spec: the raw values a `QueryParams` entry may carry
(spec section 3): strings, numbers, tri-state booleans (`true`/`false`;
absence is represented by the key being absent from the parameter list),
date expressions (a single ISO date, or a range with independently optional
bounds), and user references (a literal identity token or the reserved
current-user alias). -/
inductive RawValue where
  | str (s : String) : RawValue
  | num (n : Int) : RawValue
  | boolV (b : Bool) : RawValue
  | dateSingle (d : String) : RawValue
  | dateRange (lo hi : Option String) : RawValue
  | userLit (s : String) : RawValue
  | userAlias : RawValue
deriving DecidableEq, Repr

/-- Modelled from the spec: `QueryParams` maps filter keys to optional raw
values; it is built by the calling layer in some population order, which the
association-list representation records (spec section 3). -/
abbrev QueryParams := List (String × RawValue)

/-- Looking a key up in a parameter set: the first binding for the key, if
any.  Absent keys carry no filter. -/
def lookupParam (params : QueryParams) (k : String) : Option RawValue :=
  (List.find? (fun p => p.1 == k) params).map (fun p => p.2)

/-- Modelled from the spec: the compiler's error taxonomy (spec section 7);
every error carries the offending field key for diagnostics. -/
inductive CompileError where
  | unknownField (key : String) : CompileError
  | invalidValue (key : String) : CompileError
  | resolutionError (key : String) : CompileError
deriving DecidableEq, Repr

/-- The field key carried by a compile error. -/
def CompileError.key : CompileError → String
  | .unknownField k => k
  | .invalidValue k => k
  | .resolutionError k => k

/-- Modelled from the spec: a character is grammar-significant when it is
whitespace, a colon or a quote (spec section 4.2). -/
def isGrammarSignificant (c : Char) : Bool :=
  c.isWhitespace || c == ':' || c == '"'

/-- Modelled from the spec: a value needs quoting when it contains
whitespace or a grammar-significant character (spec section 4.2). -/
def needsQuote (s : String) : Bool :=
  s.data.any isGrammarSignificant

/-- Modelled from the spec: wrap the value in quotes exactly when it needs
quoting, otherwise emit it bare (spec section 4.2). -/
def quoteIfNeeded (s : String) : String :=
  if needsQuote s then "\"" ++ s ++ "\"" else s

/-- Modelled from the spec: the per-kind value encoders (spec section 4.2),
adapted to the code's calling convention in which the current user is
resolved by the caller and passed in (`buildSearchQuery(params, currentUser)`,
`stories.ts` lines 258-260): a `UserRef` alias uses the passed identity and
fails with `ResolutionError` when none is available.  A value whose shape
does not match the field's kind fails with `InvalidValueError`. -/
def encodeValue (currentUser : Option Member) (f : FilterField) (v : RawValue) :
    Except CompileError String :=
  match f.kind, v with
  | .stringK, .str s => .ok (f.backendToken ++ ":" ++ quoteIfNeeded s)
  | .numberK, .num n => .ok (f.backendToken ++ ":" ++ quoteIfNeeded (toString n))
  | .enumK _, .str s => .ok (f.backendToken ++ ":" ++ s)
  | .booleanIs label, .boolV true => .ok ("is:" ++ label)
  | .booleanIs label, .boolV false => .ok ("!is:" ++ label)
  | .booleanHas label, .boolV true => .ok ("has:" ++ label)
  | .booleanHas label, .boolV false => .ok ("!has:" ++ label)
  | .dateK, .dateSingle d => .ok (f.backendToken ++ ":" ++ d)
  | .dateK, .dateRange lo hi =>
      .ok (f.backendToken ++ ":" ++ lo.getD "" ++ ".." ++ hi.getD "")
  | .userRefK, .userLit s => .ok (f.backendToken ++ ":" ++ s)
  | .userRefK, .userAlias =>
      match currentUser with
      | some u => .ok (f.backendToken ++ ":" ++ u.mention_name)
      | none => .error (.resolutionError f.key)
  | _, _ => .error (.invalidValue f.key)

/-- A raw value is well-typed for a kind when its shape matches the kind;
these are exactly the inputs the spec calls well-formed (spec section 4.2). -/
def wellTyped : ValueKind → RawValue → Bool
  | .stringK, .str _ => true
  | .numberK, .num _ => true
  | .enumK _, .str _ => true
  | .booleanIs _, .boolV _ => true
  | .booleanHas _, .boolV _ => true
  | .dateK, .dateSingle _ => true
  | .dateK, .dateRange _ _ => true
  | .userRefK, .userLit _ => true
  | .userRefK, .userAlias => true
  | _, _ => false

/-- Modelled from the spec: the compiler walks the catalog in declaration
order; a field absent from the parameter set contributes nothing, a present
field is encoded into exactly one token, and the first encoder failure
aborts the whole compilation (spec section 4.4). -/
def compileTokens (currentUser : Option Member) (params : QueryParams) :
    List FilterField → Except CompileError (List String)
  | [] => .ok []
  | f :: fs =>
    match lookupParam params f.key with
    | none => compileTokens currentUser params fs
    | some v =>
      match encodeValue currentUser f v with
      | .error e => .error e
      | .ok tok =>
        match compileTokens currentUser params fs with
        | .error e => .error e
        | .ok toks => .ok (tok :: toks)

/-- Modelled from the spec: `buildSearchQuery` joins the collected tokens
with single spaces into the final query string; an empty token list yields
the empty string (spec section 4.4).  The catalog is the immutable field
registry; the current user is the identity resolved by the caller. -/
def buildSearchQuery (catalog : List FilterField) (params : QueryParams)
    (currentUser : Option Member) : Except CompileError String :=
  match compileTokens currentUser params catalog with
  | .error e => .error e
  | .ok toks => .ok (String.intercalate " " toks)

/-- From `src/tools/stories.ts` lines 258-261 (`searchStories`; `searchEpics`
in the epic tools is identical): the pipeline first invokes
`this.client.getCurrentUser()` unconditionally, then compiles the query with
the resolved value.  The first component counts the resolver invocations the
pipeline performs: the call at line 259 runs exactly once on every
invocation, before any parameter is examined. -/
def searchStoriesCompile (catalog : List FilterField) (params : QueryParams)
    (getCurrentUser : Unit → Option Member) :
    Nat × Except CompileError String :=
  let currentUser := getCurrentUser ()
  (1, buildSearchQuery catalog params currentUser)

/-- A Shortcut story, as used by the story tools in `src/tools/stories.ts`:
the fields these operations access are `owner_ids` and `name`. -/
structure Story where
  owner_ids : List String
  name : String
deriving DecidableEq, Repr

/-- From `src/tools/stories.ts` lines 158-176 (`assignCurrentUserAsOwner`):
fetch the story and the current user (each fetch may fail); if the current
user is already in `owner_ids`, answer without updating; otherwise update
the story with the current user's id concatenated onto `owner_ids`.  The
first component of a successful result is the `owner_ids` payload of the
`updateStory` call, or `none` when no update was issued. -/
def assignCurrentUserAsOwner (storyPublicId : Nat) (story? : Option Story)
    (currentUser? : Option Member) :
    Except String (Option (List String) × String) :=
  match story? with
  | none =>
      .error ("Failed to retrieve Shortcut story with public ID: " ++
        toString storyPublicId)
  | some story =>
    match currentUser? with
    | none => .error "Failed to retrieve current user"
    | some currentUser =>
      if story.owner_ids.contains currentUser.id then
        .ok (none,
          "Current user is already an owner of story sc-" ++ toString storyPublicId)
      else
        .ok (some (story.owner_ids ++ [currentUser.id]),
          "Assigned current user as owner of story sc-" ++ toString storyPublicId)

/-- From `src/tools/stories.ts` lines 178-196 (`unassignCurrentUserAsOwner`):
fetch the story and the current user (each fetch may fail); if the current
user is not in `owner_ids`, answer without updating; otherwise update the
story with `owner_ids` filtered to drop the current user's id.  The first
component of a successful result is the `owner_ids` payload of the
`updateStory` call, or `none` when no update was issued. -/
def unassignCurrentUserAsOwner (storyPublicId : Nat) (story? : Option Story)
    (currentUser? : Option Member) :
    Except String (Option (List String) × String) :=
  match story? with
  | none =>
      .error ("Failed to retrieve Shortcut story with public ID: " ++
        toString storyPublicId)
  | some story =>
    match currentUser? with
    | none => .error "Failed to retrieve current user"
    | some currentUser =>
      if story.owner_ids.contains currentUser.id then
        .ok (some (story.owner_ids.filter (fun ownerId => ownerId != currentUser.id)),
          "Unassigned current user as owner of story sc-" ++ toString storyPublicId)
      else
        .ok (none,
          "Current user is not an owner of story sc-" ++ toString storyPublicId)

/-- A word character in the sense of the JavaScript regex class `\w`:
an ASCII letter, an ASCII digit, or an underscore. -/
def isWordChar (c : Char) : Bool :=
  c.isAlphanum || c == '_'

/-- Character-level embedding of `.replace(/\s+/g, "-")` from
`src/tools/stories.ts` line 209: each maximal run of whitespace characters
is replaced by a single hyphen.  The boolean accumulator records whether the
previous character belonged to a whitespace run. -/
def collapseWhitespace : Bool → List Char → List Char
  | _, [] => []
  | prevWs, c :: cs =>
    if c.isWhitespace then
      if prevWs then collapseWhitespace true cs
      else '-' :: collapseWhitespace true cs
    else c :: collapseWhitespace false cs

/-- From `src/tools/stories.ts` lines 207-210: the story-name sanitizer
`story.name.toLowerCase().replace(/\s+/g, "-").replace(/[^\w\-]/g, "")` —
lowercase every character, replace each whitespace run with one hyphen, then
drop every character that is neither a word character nor a hyphen. -/
def sanitizeStoryName (s : String) : String :=
  String.mk ((collapseWhitespace false (s.data.map Char.toLower)).filter
    (fun c => isWordChar c || c == '-'))

/-- From `src/tools/stories.ts` line 207: the full branch name
`mention_name/sc-<id>/<sanitized story name>` before truncation. -/
def storyBranchName (currentUser : Member) (storyPublicId : Nat)
    (story : Story) : String :=
  currentUser.mention_name ++ "/sc-" ++ toString storyPublicId ++ "/" ++
    sanitizeStoryName story.name

/-- Character-level embedding of `branchName.substring(0, 50)` from
`src/tools/stories.ts` line 212: the first 50 characters of the branch name. -/
def truncateBranchName (s : String) : String :=
  String.mk (s.data.take 50)

/-- From `src/tools/stories.ts` lines 198-214 (`getStoryBranchName`): fetch
the current user, then the story (each fetch may fail), build the branch
name, and report it truncated to 50 characters. -/
def getStoryBranchName (storyPublicId : Nat) (story? : Option Story)
    (currentUser? : Option Member) : Except String String :=
  match currentUser? with
  | none => .error "Unable to find current user"
  | some currentUser =>
    match story? with
    | none =>
        .error ("Failed to retrieve Shortcut story with public ID: " ++
          toString storyPublicId)
    | some story =>
        .ok ("Branch name for story sc-" ++ toString storyPublicId ++ ": " ++
          truncateBranchName (storyBranchName currentUser storyPublicId story))

/-! ### Helper lemmas about the compiler -/

lemma lookupParam_nil (k : String) : lookupParam [] k = none := rfl

lemma compileTokens_nil_params (u : Option Member) (cat : List FilterField) :
    compileTokens u [] cat = .ok [] := by
  induction cat with
  | nil => rfl
  | cons f fs ih => simp [compileTokens, lookupParam_nil, ih]

lemma compileTokens_congr (u : Option Member) (p₁ p₂ : QueryParams)
    (cat : List FilterField)
    (h : ∀ f ∈ cat, lookupParam p₁ f.key = lookupParam p₂ f.key) :
    compileTokens u p₁ cat = compileTokens u p₂ cat := by
  induction cat with
  | nil => rfl
  | cons f fs ih =>
    have hf : lookupParam p₁ f.key = lookupParam p₂ f.key := h f (by simp)
    have hfs : ∀ g ∈ fs, lookupParam p₁ g.key = lookupParam p₂ g.key :=
      fun g hg => h g (by simp [hg])
    simp only [compileTokens, hf, ih hfs]

lemma compileTokens_skip (u : Option Member) (p : QueryParams)
    (f : FilterField) (fs : List FilterField)
    (h : lookupParam p f.key = none) :
    compileTokens u p (f :: fs) = compileTokens u p fs := by
  simp [compileTokens, h]

lemma compileTokens_length (u : Option Member) (p : QueryParams)
    (cat : List FilterField) (toks : List String)
    (h : compileTokens u p cat = .ok toks) :
    toks.length = (cat.filter (fun f => (lookupParam p f.key).isSome)).length := by
  induction cat generalizing toks with
  | nil =>
    simp [compileTokens] at h
    simp [← h]
  | cons f fs ih =>
    by_cases hl : (lookupParam p f.key).isSome
    · obtain ⟨v, hv⟩ := Option.isSome_iff_exists.mp hl
      simp only [compileTokens, hv] at h
      cases he : encodeValue u f v with
      | error e => rw [he] at h; exact absurd h (by simp)
      | ok tok =>
        rw [he] at h
        cases hr : compileTokens u p fs with
        | error e => rw [hr] at h; exact absurd h (by simp)
        | ok rest =>
          rw [hr] at h
          have : toks = tok :: rest := by
            simpa using h.symm
          subst this
          simp [List.filter, hv, ih rest hr]
    · have hn : lookupParam p f.key = none := Option.not_isSome_iff_eq_none.mp hl
      rw [compileTokens_skip u p f fs hn] at h
      simp [List.filter, hn, ih toks h]

lemma encodeValue_key_of_error (u : Option Member) (f : FilterField)
    (v : RawValue) (e : CompileError)
    (h : encodeValue u f v = .error e) : e.key = f.key := by
  unfold encodeValue at h
  cases hk : f.kind <;> cases v <;> rw [hk] at h
  case booleanIs.boolV l b => cases b <;> simp at h
  case booleanHas.boolV l b => cases b <;> simp at h
  case userRefK.userAlias =>
    cases u with
    | none => simp at h; subst h; rfl
    | some m => simp at h
  all_goals simp at h
  all_goals (subst h; rfl)

lemma encodeValue_none_of_wellTyped (f : FilterField) (v : RawValue)
    (h : wellTyped f.kind v = true) :
    (∃ t, encodeValue none f v = .ok t) ∨
      encodeValue none f v = .error (.resolutionError f.key) := by
  cases hk : f.kind <;> cases v <;> rw [hk] at h
  case stringK.str s =>
    exact .inl ⟨f.backendToken ++ ":" ++ quoteIfNeeded s, by simp [encodeValue, hk]⟩
  case numberK.num n =>
    exact .inl ⟨f.backendToken ++ ":" ++ quoteIfNeeded (toString n),
      by simp [encodeValue, hk]⟩
  case enumK.str a s =>
    exact .inl ⟨f.backendToken ++ ":" ++ s, by simp [encodeValue, hk]⟩
  case booleanIs.boolV l b =>
    cases b
    · exact .inl ⟨"!is:" ++ l, by simp [encodeValue, hk]⟩
    · exact .inl ⟨"is:" ++ l, by simp [encodeValue, hk]⟩
  case booleanHas.boolV l b =>
    cases b
    · exact .inl ⟨"!has:" ++ l, by simp [encodeValue, hk]⟩
    · exact .inl ⟨"has:" ++ l, by simp [encodeValue, hk]⟩
  case dateK.dateSingle d =>
    exact .inl ⟨f.backendToken ++ ":" ++ d, by simp [encodeValue, hk]⟩
  case dateK.dateRange lo hi =>
    exact .inl ⟨f.backendToken ++ ":" ++ lo.getD "" ++ ".." ++ hi.getD "",
      by simp [encodeValue, hk]⟩
  case userRefK.userLit s =>
    exact .inl ⟨f.backendToken ++ ":" ++ s, by simp [encodeValue, hk]⟩
  case userRefK.userAlias =>
    exact .inr (by simp [encodeValue, hk])
  all_goals simp [wellTyped] at h

lemma compileTokens_error_key (u : Option Member) (p : QueryParams)
    (cat : List FilterField) (e : CompileError)
    (h : compileTokens u p cat = .error e) :
    ∃ f ∈ cat, f.key = e.key ∧ (lookupParam p f.key).isSome = true := by
  induction cat with
  | nil => simp [compileTokens] at h
  | cons f fs ih =>
    cases hv : lookupParam p f.key with
    | none =>
      rw [compileTokens_skip u p f fs hv] at h
      obtain ⟨g, hg, hk, hs⟩ := ih h
      exact ⟨g, by simp [hg], hk, hs⟩
    | some v =>
      simp only [compileTokens, hv] at h
      cases he : encodeValue u f v with
      | error e2 =>
        rw [he] at h
        simp at h
        subst h
        exact ⟨f, by simp, (encodeValue_key_of_error u f v e2 he).symm, by simp [hv]⟩
      | ok tok =>
        rw [he] at h
        cases hr : compileTokens u p fs with
        | error e2 =>
          rw [hr] at h
          simp at h
          subst h
          obtain ⟨g, hg, hk, hs⟩ := ih hr
          exact ⟨g, by simp [hg], hk, hs⟩
        | ok toks => rw [hr] at h; simp at h

lemma compileTokens_alias_mem (m : Member) (p : QueryParams)
    (cat : List FilterField) (toks : List String) (f : FilterField)
    (h : compileTokens (some m) p cat = .ok toks)
    (hf : f ∈ cat) (hk : f.kind = .userRefK)
    (hv : lookupParam p f.key = some .userAlias) :
    (f.backendToken ++ ":" ++ m.mention_name) ∈ toks := by
  induction cat generalizing toks with
  | nil => simp at hf
  | cons g gs ih =>
    rcases List.mem_cons.mp hf with heq | hf2
    · subst heq
      simp only [compileTokens, hv] at h
      have he : encodeValue (some m) f .userAlias =
          .ok (f.backendToken ++ ":" ++ m.mention_name) := by
        simp [encodeValue, hk]
      rw [he] at h
      cases hr : compileTokens (some m) p gs with
      | error e => rw [hr] at h; simp at h
      | ok rest =>
        rw [hr] at h
        simp at h
        rw [← h]
        simp
    · cases hgv : lookupParam p g.key with
      | none =>
        rw [compileTokens_skip _ p g gs hgv] at h
        exact ih toks h hf2
      | some v =>
        simp only [compileTokens, hgv] at h
        cases he : encodeValue (some m) g v with
        | error e => rw [he] at h; simp at h
        | ok tok =>
          rw [he] at h
          cases hr : compileTokens (some m) p gs with
          | error e => rw [hr] at h; simp at h
          | ok rest =>
            rw [hr] at h
            simp at h
            rw [← h]
            exact List.mem_cons_of_mem _ (ih rest hr hf2)

lemma compileTokens_resolution_aborts (p : QueryParams) (cat : List FilterField)
    (hwt : ∀ f ∈ cat, Option.all (wellTyped f.kind) (lookupParam p f.key) = true)
    (hex : ∃ f ∈ cat, f.kind = .userRefK ∧ lookupParam p f.key = some .userAlias) :
    ∃ k, compileTokens none p cat = .error (.resolutionError k) := by
  induction cat with
  | nil => obtain ⟨f, hf, _⟩ := hex; simp at hf
  | cons g gs ih =>
    cases hgv : lookupParam p g.key with
    | none =>
      rw [compileTokens_skip none p g gs hgv]
      apply ih
      · intro f hf
        exact hwt f (by simp [hf])
      · obtain ⟨f, hf, hk, hv⟩ := hex
        rcases List.mem_cons.mp hf with heq | hf2
        · subst heq; rw [hgv] at hv; cases hv
        · exact ⟨f, hf2, hk, hv⟩
    | some v =>
      have hwtg : wellTyped g.kind v = true := by
        have h0 := hwt g (by simp)
        rw [hgv] at h0
        simpa [Option.all] using h0
      rcases encodeValue_none_of_wellTyped g v hwtg with ⟨t, ht⟩ | ht
      · simp only [compileTokens, hgv, ht]
        have hex2 : ∃ f ∈ gs, f.kind = .userRefK ∧
            lookupParam p f.key = some .userAlias := by
          obtain ⟨f, hf, hk, hv⟩ := hex
          rcases List.mem_cons.mp hf with heq | hf2
          · subst heq
            rw [hgv] at hv
            have hv2 : v = .userAlias := by injection hv
            subst hv2
            rw [show encodeValue none f .userAlias =
              .error (.resolutionError f.key) by simp [encodeValue, hk]] at ht
            cases ht
          · exact ⟨f, hf2, hk, hv⟩
        obtain ⟨k, hk2⟩ := ih (fun f hf => hwt f (by simp [hf])) hex2
        rw [hk2]
        exact ⟨k, rfl⟩
      · simp only [compileTokens, hgv, ht]
        exact ⟨g.key, rfl⟩

lemma buildSearchQuery_error_iff (catalog : List FilterField) (p : QueryParams)
    (u : Option Member) (e : CompileError) :
    buildSearchQuery catalog p u = .error e ↔
      compileTokens u p catalog = .error e := by
  unfold buildSearchQuery
  cases h : compileTokens u p catalog <;> simp

/-! ### Helper lemmas about characters and the branch-name sanitizer -/

lemma char_isUpper_iff (d : Char) : d.isUpper = true ↔ 65 ≤ d.toNat ∧ d.toNat ≤ 90 := by
  rw [Char.isUpper]
  rw [Bool.and_eq_true, decide_eq_true_eq, decide_eq_true_eq]
  rw [ge_iff_le, UInt32.le_def, UInt32.le_def, BitVec.le_def, BitVec.le_def]
  simp [Char.toNat, UInt32.toNat]

lemma char_toNat_ofNat_valid {n : Nat} (h : n < 55296) :
    (Char.ofNat n).toNat = n := by
  rw [Char.ofNat, dif_pos (Or.inl h)]
  rfl

lemma toLower_isUpper_false (c : Char) : (Char.toLower c).isUpper = false := by
  rw [Char.toLower]
  split
  · rename_i h
    obtain ⟨h1, h2⟩ := h
    have hval : (Char.ofNat (Char.toNat c + 32)).toNat = Char.toNat c + 32 :=
      char_toNat_ofNat_valid (by omega)
    rw [Bool.eq_false_iff]
    intro hu
    have h3 := (char_isUpper_iff _).mp hu
    omega
  · rename_i h
    rw [Bool.eq_false_iff]
    intro hu
    have h3 := (char_isUpper_iff _).mp hu
    exact h ⟨h3.1, h3.2⟩

lemma wordChar_or_hyphen_not_whitespace (c : Char)
    (h : (isWordChar c || c == '-') = true) : c.isWhitespace = false := by
  by_contra hc
  rw [Bool.not_eq_false] at hc
  have h4 : c = ' ' ∨ c = '\t' ∨ c = '\r' ∨ c = '\n' := by
    rw [Char.isWhitespace] at hc
    simp at hc
    tauto
  rcases h4 with rfl | rfl | rfl | rfl <;> exact absurd h (by decide)

lemma mem_collapseWhitespace (c : Char) (b : Bool) (l : List Char)
    (h : c ∈ collapseWhitespace b l) : c = '-' ∨ c ∈ l := by
  induction l generalizing b with
  | nil => simp [collapseWhitespace] at h
  | cons d ds ih =>
    rw [collapseWhitespace] at h
    split at h
    · split at h
      · rcases ih _ h with h1 | h2
        · exact .inl h1
        · exact .inr (List.mem_cons_of_mem _ h2)
      · rcases List.mem_cons.mp h with heq | h2
        · exact .inl heq
        · rcases ih _ h2 with h1 | h3
          · exact .inl h1
          · exact .inr (List.mem_cons_of_mem _ h3)
    · rcases List.mem_cons.mp h with heq | h2
      · subst heq
        exact .inr (List.mem_cons_self _ _)
      · rcases ih _ h2 with h1 | h3
        · exact .inl h1
        · exact .inr (List.mem_cons_of_mem _ h3)

lemma sanitizeStoryName_chars (s : String) (c : Char)
    (hc : c ∈ (sanitizeStoryName s).data) :
    (isWordChar c || c == '-') = true ∧ c.isWhitespace = false ∧
      c.isUpper = false := by
  have hc2 : c ∈ (collapseWhitespace false (s.data.map Char.toLower)).filter
      (fun d => isWordChar d || d == '-') := hc
  rw [List.mem_filter] at hc2
  obtain ⟨hmem, hkeep⟩ := hc2
  refine ⟨hkeep, wordChar_or_hyphen_not_whitespace c hkeep, ?_⟩
  rcases mem_collapseWhitespace c false _ hmem with heq | hmem2
  · subst heq
    decide
  · obtain ⟨d, _, hd2⟩ := List.mem_map.mp hmem2
    rw [← hd2]
    exact toLower_isUpper_false d

/-! ### Claim theorems -/

/-- Claim C1: compiling a parameter set is deterministic, and the output does
not depend on the order in which the caller populated the parameter set's
keys: whenever two parameter sets bind the same value to every catalog key,
they compile to the identical query string (tokens are collected in catalog
declaration order and joined by single spaces, so population order is
irrelevant). -/
theorem buildSearchQuery_order_independent (catalog : List FilterField)
    (p₁ p₂ : QueryParams) (u : Option Member)
    (h : ∀ f ∈ catalog, lookupParam p₁ f.key = lookupParam p₂ f.key) :
    buildSearchQuery catalog p₁ u = buildSearchQuery catalog p₂ u ∧
      buildSearchQuery catalog p₁ u = buildSearchQuery catalog p₁ u := by
  refine ⟨?_, rfl⟩
  unfold buildSearchQuery
  rw [compileTokens_congr u p₁ p₂ catalog h]

/-- Claim C1 witness: two parameter sets populated in opposite orders with
the same bindings compile to the identical string. -/
theorem buildSearchQuery_order_independent_witness :
    buildSearchQuery [⟨"id", "id", .numberK⟩, ⟨"name", "name", .stringK⟩]
        [("name", RawValue.str "bug"), ("id", RawValue.num 1)] none =
      buildSearchQuery [⟨"id", "id", .numberK⟩, ⟨"name", "name", .stringK⟩]
        [("id", RawValue.num 1), ("name", RawValue.str "bug")] none :=
  (buildSearchQuery_order_independent
    [⟨"id", "id", .numberK⟩, ⟨"name", "name", .stringK⟩]
    [("name", RawValue.str "bug"), ("id", RawValue.num 1)]
    [("id", RawValue.num 1), ("name", RawValue.str "bug")] none (by decide)).1

/-- Claim C2: boolean filters are tri-state.  A `BooleanIs`/`BooleanHas`
field with label `L` encodes `true` as `is:L`/`has:L` and `false` as the
negated `!is:L`/`!has:L`, and when the field's key is absent from the
parameter set the compiler emits no token for it at all. -/
theorem booleanFilter_tristate (u : Option Member) (key tok label : String)
    (p : QueryParams) (fs : List FilterField) :
    encodeValue u ⟨key, tok, .booleanIs label⟩ (.boolV true) = .ok ("is:" ++ label) ∧
    encodeValue u ⟨key, tok, .booleanIs label⟩ (.boolV false) = .ok ("!is:" ++ label) ∧
    encodeValue u ⟨key, tok, .booleanHas label⟩ (.boolV true) = .ok ("has:" ++ label) ∧
    encodeValue u ⟨key, tok, .booleanHas label⟩ (.boolV false) = .ok ("!has:" ++ label) ∧
    (lookupParam p key = none →
      compileTokens u p (⟨key, tok, .booleanIs label⟩ :: fs) = compileTokens u p fs ∧
      compileTokens u p (⟨key, tok, .booleanHas label⟩ :: fs) = compileTokens u p fs) := by
  refine ⟨rfl, rfl, rfl, rfl, fun h => ⟨?_, ?_⟩⟩
  · exact compileTokens_skip u p _ fs h
  · exact compileTokens_skip u p _ fs h

/-- Claim C2 witness: the tri-state encodings of an `isDone`-style field with
label `done`, and the absence of any token when the key is unset. -/
theorem booleanFilter_tristate_witness :
    encodeValue none ⟨"isDone", "isDone", .booleanIs "done"⟩ (.boolV true) =
      .ok ("is:" ++ "done") ∧
    encodeValue none ⟨"isDone", "isDone", .booleanIs "done"⟩ (.boolV false) =
      .ok ("!is:" ++ "done") ∧
    compileTokens none [] [⟨"isDone", "isDone", .booleanIs "done"⟩] =
      compileTokens none [] [] := by
  obtain ⟨h1, h2, _, _, h5⟩ :=
    booleanFilter_tristate none "isDone" "isDone" "done" [] []
  exact ⟨h1, h2, (h5 rfl).1⟩

/-- Claim C3: date filters.  A single ISO date compiles to `token:YYYY-MM-DD`
and a range compiles to `token:START..END` where either bound may be
omitted, yielding `token:START..` or `token:..END`. -/
theorem dateFilter_encoding (u : Option Member) (key tok d a b : String) :
    encodeValue u ⟨key, tok, .dateK⟩ (.dateSingle d) = .ok (tok ++ ":" ++ d) ∧
    encodeValue u ⟨key, tok, .dateK⟩ (.dateRange (some a) (some b)) =
      .ok (tok ++ ":" ++ a ++ ".." ++ b) ∧
    encodeValue u ⟨key, tok, .dateK⟩ (.dateRange (some a) none) =
      .ok (tok ++ ":" ++ a ++ "..") ∧
    encodeValue u ⟨key, tok, .dateK⟩ (.dateRange none (some b)) =
      .ok (tok ++ ":.." ++ b) := by
  have hcolon : (":" : String) ++ ".." = ":.." := rfl
  refine ⟨rfl, rfl, ?_, ?_⟩
  · show Except.ok (tok ++ ":" ++ a ++ ".." ++ "") = _
    rw [String.append_empty]
  · show Except.ok (tok ++ ":" ++ "" ++ ".." ++ b) = _
    rw [String.append_empty, String.append_assoc tok ":" "..", hcolon]

/-- Claim C4: string and number values encode as `token:value`, where the
value is wrapped in quotes exactly when it needs quoting, and a value needs
quoting precisely when it contains whitespace, a colon, or a quote
character. -/
theorem stringNumberFilter_quoting (u : Option Member) (key tok s : String)
    (n : Int) :
    encodeValue u ⟨key, tok, .stringK⟩ (.str s) =
      .ok (tok ++ ":" ++ (if needsQuote s then "\"" ++ s ++ "\"" else s)) ∧
    (needsQuote s = true ↔
      ∃ c ∈ s.data, (c.isWhitespace || c == ':' || c == '"') = true) ∧
    encodeValue u ⟨key, tok, .numberK⟩ (.num n) =
      .ok (tok ++ ":" ++ quoteIfNeeded (toString n)) := by
  refine ⟨rfl, ?_, rfl⟩
  unfold needsQuote isGrammarSignificant
  simp [List.any_eq_true]

/-- Claim C5 counterexample: the claim says a call whose parameters contain
no current-user alias reference invokes the resolver zero times, but the
search pipeline (`stories.ts` lines 258-261) invokes
`client.getCurrentUser()` unconditionally before compiling: with an empty
catalog and empty parameter set — hence no alias reference anywhere — the
resolver is still invoked once, not zero times. -/
theorem searchStories_resolver_not_lazy_cex :
    (searchStoriesCompile [] [] (fun _ => some ⟨"user-1", "amcd"⟩)).fst = 1 ∧
    (searchStoriesCompile [] [] (fun _ => some ⟨"user-1", "amcd"⟩)).fst ≠ 0 :=
  ⟨rfl, by decide⟩

/-- Claim C5 (amended): the search pipeline invokes the current-user
resolver exactly once per call — eagerly, before compilation, regardless of
how many fields reference the alias — the compiled query is built from that
single resolved identity, and every alias-referencing field present in the
parameters observes the same resolved identity in the emitted tokens. -/
theorem searchStories_resolver_exactly_once (catalog : List FilterField)
    (params : QueryParams) (g : Unit → Option Member) :
    (searchStoriesCompile catalog params g).fst = 1 ∧
    (searchStoriesCompile catalog params g).snd =
      buildSearchQuery catalog params (g ()) ∧
    (∀ m toks f, g () = some m →
      compileTokens (some m) params catalog = .ok toks →
      f ∈ catalog → f.kind = .userRefK →
      lookupParam params f.key = some .userAlias →
      (f.backendToken ++ ":" ++ m.mention_name) ∈ toks) := by
  refine ⟨rfl, rfl, fun m toks f hg hc hf hk hv => ?_⟩
  exact compileTokens_alias_mem m params catalog toks f hc hf hk hv

/-- Claim C5 (amended) witness: an `owner:me`-style query resolved to the
identity `amcd` invokes the resolver once and emits the resolved mention
token for the alias field. -/
theorem searchStories_resolver_exactly_once_witness :
    (searchStoriesCompile [⟨"owner", "owner", .userRefK⟩]
        [("owner", RawValue.userAlias)] (fun _ => some ⟨"user-1", "amcd"⟩)).fst = 1 ∧
    ("owner" ++ ":" ++ "amcd") ∈ (["owner:amcd"] : List String) := by
  obtain ⟨h1, _, h3⟩ := searchStories_resolver_exactly_once
    [⟨"owner", "owner", .userRefK⟩] [("owner", RawValue.userAlias)]
    (fun _ => some ⟨"user-1", "amcd"⟩)
  refine ⟨h1, ?_⟩
  exact h3 ⟨"user-1", "amcd"⟩ ["owner:amcd"] ⟨"owner", "owner", .userRefK⟩
    rfl rfl (by simp) rfl rfl

/-- Claim C6: compilation is all-or-nothing.  When the resolver has failed
(no identity is available), every present value is well-formed, and some
field references the current-user alias, compilation returns no query
string: it surfaces a `ResolutionError` carrying a field key.  Moreover any
compile error identifies an offending field key: the key of a catalog field
that is present in the parameter set. -/
theorem compileFailure_aborts_with_key (catalog : List FilterField)
    (p : QueryParams) (u : Option Member) (e : CompileError) :
    (u = none →
      (∀ f ∈ catalog, Option.all (wellTyped f.kind) (lookupParam p f.key) = true) →
      (∃ f ∈ catalog, f.kind = .userRefK ∧ lookupParam p f.key = some .userAlias) →
      ∃ k, buildSearchQuery catalog p u = .error (.resolutionError k)) ∧
    (buildSearchQuery catalog p u = .error e →
      ∃ f ∈ catalog, f.key = e.key ∧ (lookupParam p f.key).isSome = true) := by
  constructor
  · intro hu hwt hex
    subst hu
    obtain ⟨k, hk⟩ := compileTokens_resolution_aborts p catalog hwt hex
    exact ⟨k, (buildSearchQuery_error_iff catalog p none (.resolutionError k)).mpr hk⟩
  · intro he
    exact compileTokens_error_key u p catalog e
      ((buildSearchQuery_error_iff catalog p u e).mp he)

/-- Claim C6 witness: the parameter set `owner = me` compiled with a failing
resolver yields a `ResolutionError` (no string), and the surfaced error
names the present field `owner`. -/
theorem compileFailure_aborts_with_key_witness :
    (∃ k, buildSearchQuery [⟨"owner", "owner", .userRefK⟩]
      [("owner", RawValue.userAlias)] none = .error (.resolutionError k)) ∧
    (∃ f ∈ [(⟨"owner", "owner", .userRefK⟩ : FilterField)],
      f.key = (CompileError.resolutionError "owner").key ∧
      (lookupParam [("owner", RawValue.userAlias)] f.key).isSome = true) := by
  obtain ⟨h1, h2⟩ := compileFailure_aborts_with_key
    [⟨"owner", "owner", .userRefK⟩] [("owner", RawValue.userAlias)] none
    (.resolutionError "owner")
  refine ⟨h1 rfl (by decide) ⟨⟨"owner", "owner", .userRefK⟩, by simp, rfl, rfl⟩, h2 rfl⟩

/-- Claim C7: the empty parameter set compiles to the empty string; a field
whose key is absent from the parameter set contributes no token; and on a
successful compile the number of emitted tokens equals the number of catalog
fields present in the parameter set — so each present catalog key
contributes at most one token. -/
theorem emptyQuery_and_one_token_per_field (catalog : List FilterField)
    (p : QueryParams) (u : Option Member) (f : FilterField)
    (fs : List FilterField) (toks : List String) :
    buildSearchQuery catalog [] u = .ok "" ∧
    (lookupParam p f.key = none →
      compileTokens u p (f :: fs) = compileTokens u p fs) ∧
    (compileTokens u p catalog = .ok toks →
      toks.length =
        (catalog.filter (fun g => (lookupParam p g.key).isSome)).length) := by
  refine ⟨?_, fun h => compileTokens_skip u p f fs h,
    fun h => compileTokens_length u p catalog toks h⟩
  unfold buildSearchQuery
  rw [compileTokens_nil_params]
  rfl

/-- Claim C7 witness: a two-field catalog with only `id` present compiles the
empty parameter set to the empty string, skips the absent `name` field, and
emits exactly one token for the one present field. -/
theorem emptyQuery_and_one_token_per_field_witness :
    buildSearchQuery [⟨"id", "id", .numberK⟩, ⟨"name", "name", .stringK⟩] [] none =
      .ok "" ∧
    compileTokens none [("id", RawValue.num 7)] [⟨"name", "name", .stringK⟩] =
      compileTokens none [("id", RawValue.num 7)] [] ∧
    (["id:7"] : List String).length =
      (([⟨"id", "id", .numberK⟩, ⟨"name", "name", .stringK⟩] :
          List FilterField).filter
        (fun g => (lookupParam [("id", RawValue.num 7)] g.key).isSome)).length := by
  obtain ⟨h1, h2, h3⟩ := emptyQuery_and_one_token_per_field
    [⟨"id", "id", .numberK⟩, ⟨"name", "name", .stringK⟩]
    [("id", RawValue.num 7)] none ⟨"name", "name", .stringK⟩ [] ["id:7"]
  exact ⟨h1, h2 rfl, h3 rfl⟩

/-- Claim C8: `assignCurrentUserAsOwner` is idempotent.  When the current
user's id is already among the story's owners, no story update is issued and
the reported message says the user is already an owner; otherwise the update
sets the owner list to the old list with the current user's id appended. -/
theorem assignCurrentUserAsOwner_idempotent (storyPublicId : Nat)
    (story : Story) (m : Member) :
    (m.id ∈ story.owner_ids →
      assignCurrentUserAsOwner storyPublicId (some story) (some m) =
        .ok (none,
          "Current user is already an owner of story sc-" ++ toString storyPublicId)) ∧
    (m.id ∉ story.owner_ids →
      assignCurrentUserAsOwner storyPublicId (some story) (some m) =
        .ok (some (story.owner_ids ++ [m.id]),
          "Assigned current user as owner of story sc-" ++ toString storyPublicId)) := by
  constructor
  · intro h
    simp [assignCurrentUserAsOwner, h]
  · intro h
    simp [assignCurrentUserAsOwner, h]

/-- Claim C8 witness: assigning when the user already owns the story issues
no update, and assigning a fresh owner appends the user's id. -/
theorem assignCurrentUserAsOwner_idempotent_witness :
    assignCurrentUserAsOwner 5 (some ⟨["u1"], "s"⟩) (some ⟨"u1", "a"⟩) =
      .ok (none, "Current user is already an owner of story sc-" ++ toString 5) ∧
    assignCurrentUserAsOwner 5 (some ⟨["u2"], "s"⟩) (some ⟨"u1", "a"⟩) =
      .ok (some (["u2"] ++ ["u1"]),
        "Assigned current user as owner of story sc-" ++ toString 5) :=
  ⟨(assignCurrentUserAsOwner_idempotent 5 ⟨["u1"], "s"⟩ ⟨"u1", "a"⟩).1 (by decide),
   (assignCurrentUserAsOwner_idempotent 5 ⟨["u2"], "s"⟩ ⟨"u1", "a"⟩).2 (by decide)⟩

/-- Claim C9: `unassignCurrentUserAsOwner` removes only the current user's
id.  When the current user is not an owner, no story update is issued and
the story is left unchanged; when an update is issued, every other owner id
present before the call is still present in the updated list. -/
theorem unassignCurrentUserAsOwner_frame (storyPublicId : Nat)
    (story : Story) (m : Member) :
    (m.id ∉ story.owner_ids →
      unassignCurrentUserAsOwner storyPublicId (some story) (some m) =
        .ok (none,
          "Current user is not an owner of story sc-" ++ toString storyPublicId)) ∧
    (∀ upd msg, unassignCurrentUserAsOwner storyPublicId (some story) (some m) =
        .ok (some upd, msg) →
      ∀ x ∈ story.owner_ids, x ≠ m.id → x ∈ upd) := by
  constructor
  · intro h
    simp [unassignCurrentUserAsOwner, h]
  · intro upd msg he x hx hxm
    by_cases hm : m.id ∈ story.owner_ids
    · simp [unassignCurrentUserAsOwner, hm] at he
      rw [← he.1]
      simp [List.mem_filter, hx, hxm]
    · simp [unassignCurrentUserAsOwner, hm] at he

/-- Claim C9 witness: unassigning a non-owner issues no update, and
unassigning an actual owner keeps the other owner `u2`. -/
theorem unassignCurrentUserAsOwner_frame_witness :
    unassignCurrentUserAsOwner 9 (some ⟨["u2"], "s"⟩) (some ⟨"u1", "a"⟩) =
      .ok (none, "Current user is not an owner of story sc-" ++ toString 9) ∧
    "u2" ∈ (["u2"] : List String).filter (fun o => o != "u1") := by
  refine ⟨(unassignCurrentUserAsOwner_frame 9 ⟨["u2"], "s"⟩ ⟨"u1", "a"⟩).1 (by decide), ?_⟩
  exact (unassignCurrentUserAsOwner_frame 9 ⟨["u2", "u1"], "s"⟩ ⟨"u1", "a"⟩).2
    (["u2", "u1"].filter (fun o => o != "u1")) _ rfl "u2" (by decide) (by decide)

/-- Claim C10: the branch name reported by `getStoryBranchName` is the
truncation to at most 50 characters of
`mention_name/sc-<id>/<sanitized story name>`, where the sanitized story
name contains only word characters and hyphens — in particular no
whitespace (each whitespace run was collapsed to one hyphen, all other
non-word characters were removed) and no uppercase letters (the name was
lowercased first). -/
theorem getStoryBranchName_format (storyPublicId : Nat) (story : Story)
    (m : Member) :
    getStoryBranchName storyPublicId (some story) (some m) =
      .ok ("Branch name for story sc-" ++ toString storyPublicId ++ ": " ++
        truncateBranchName (storyBranchName m storyPublicId story)) ∧
    storyBranchName m storyPublicId story =
      m.mention_name ++ "/sc-" ++ toString storyPublicId ++ "/" ++
        sanitizeStoryName story.name ∧
    (truncateBranchName (storyBranchName m storyPublicId story)).length ≤ 50 ∧
    (∀ c ∈ (sanitizeStoryName story.name).data,
      (isWordChar c || c == '-') = true ∧ c.isWhitespace = false ∧
        c.isUpper = false) := by
  refine ⟨rfl, rfl, ?_, fun c hc => sanitizeStoryName_chars story.name c hc⟩
  have h : (truncateBranchName (storyBranchName m storyPublicId story)).length =
      ((storyBranchName m storyPublicId story).data.take 50).length := rfl
  rw [h, List.length_take]
  omega

/-- Claim C10 witness: for the story named `We Got a 404!` and user `amcd`,
the reported branch name is the truncated
`amcd/sc-283926/we-got-a-404`, and its characters are lowercase word
characters or hyphens. -/
theorem getStoryBranchName_format_witness :
    getStoryBranchName 283926 (some ⟨[], "We Got a 404!"⟩) (some ⟨"u", "amcd"⟩) =
      .ok ("Branch name for story sc-" ++ toString 283926 ++ ": " ++
        truncateBranchName (storyBranchName ⟨"u", "amcd"⟩ 283926 ⟨[], "We Got a 404!"⟩)) ∧
    ((isWordChar 'w' || 'w' == '-') = true ∧ ('w').isWhitespace = false ∧
      ('w').isUpper = false) := by
  obtain ⟨h1, _, _, h4⟩ :=
    getStoryBranchName_format 283926 ⟨[], "We Got a 404!"⟩ ⟨"u", "amcd"⟩
  exact ⟨h1, h4 'w' (by decide)⟩
